import Mathlib

/-!
Verification of the natman-go reconciliation engine.

Strings from the Go sources are modelled as lists of characters (`Str`),
and the relevant functions of the `strings` package are given faithful
executable translations below.  The reconciler, canonicalizer, executor,
rule compiler, address expansion/validation and prefix inference are
translated from the repository sources:
  * `smartDifference`, `normalizeRule`, the apply loops of
    `ApplyNetmapRules` (netmap manager),
  * `difference`, `normalizeNatRule` (Go `normalizeRule` of the NAT
    manager), `applyRuleChanges` (NAT manager),
  * `SimpleConcatAddress`, `isValidIPv6Address`,
    `isValidIPv6AddressFormat`, `GenerateIp6tablesRules`, `GetRadvRoutes`
    (link/netmap6),
  * `findCommonIPv6Prefix` (worker/config-maker).
-/

namespace Natman

/-- Strings are modelled as lists of characters. -/
abbrev Str := List Char

/-- Conversion from a Lean string literal to the model type. -/
def str (s : String) : Str := s.data

/-- ASCII whitespace, the fragment of Go `unicode.IsSpace` relevant to
rule text (rules contain only ASCII). -/
def isSpaceChar (c : Char) : Bool :=
  c = ' ' || c = '\t' || c = '\n' || c = '\r'

/-- Helper of `fields`: accumulates the current field (reversed). -/
def fieldsAux : Str → Str → List Str
  | [], acc => if acc.isEmpty then [] else [acc.reverse]
  | c :: rest, acc =>
    if isSpaceChar c then
      if acc.isEmpty then fieldsAux rest [] else acc.reverse :: fieldsAux rest []
    else fieldsAux rest (c :: acc)

/-- Go `strings.Fields`: splits around runs of whitespace, no empty fields. -/
def fields (s : Str) : List Str := fieldsAux s []

/-- Does the string contain the character?  (Go `strings.Contains` with a
one-character substring.) -/
def hasChar : Str → Char → Bool
  | [], _ => false
  | c :: rest, t => if c = t then true else hasChar rest t

/-- Go `strings.HasPrefix s p`. -/
def hasPrefixStr : Str → Str → Bool
  | _, [] => true
  | [], _ :: _ => false
  | c :: s, d :: p => if c = d then hasPrefixStr s p else false

/-- Go `strings.Contains s sub`. -/
def containsSub : Str → Str → Bool
  | [], sub => sub.isEmpty
  | c :: rest, sub => hasPrefixStr (c :: rest) sub || containsSub rest sub

/-- Go `strings.Split s sep` for a one-character separator: every
occurrence splits, empty fields are kept. -/
def splitOnChar (sep : Char) : Str → List Str
  | [] => [[]]
  | c :: rest =>
    if c = sep then [] :: splitOnChar sep rest
    else
      match splitOnChar sep rest with
      | f :: r => (c :: f) :: r
      | [] => [[c]]

/-- Go `strings.Count s "::"`: number of non-overlapping occurrences of
the compression marker, scanning left to right. -/
def countDoubleColon : Str → Nat
  | ':' :: ':' :: rest => 1 + countDoubleColon rest
  | _ :: rest => countDoubleColon rest
  | [] => 0

/-- Go `strings.TrimRight s ":"`: removes every trailing colon. -/
def trimRightColons (s : Str) : Str :=
  (s.reverse.dropWhile (fun c => c = ':')).reverse

/-- Go `strings.TrimPrefix s p`. -/
def trimPrefixStr (s p : Str) : Str :=
  if hasPrefixStr s p then s.drop p.length else s

/-- Go `strings.Join parts sep` for a one-character separator. -/
def joinSep (sep : Char) : List Str → Str
  | [] => []
  | [x] => x
  | x :: y :: rest => x ++ sep :: joinSep sep (y :: rest)

/-- Go `strings.ToLower` on the ASCII letters occurring in rule text. -/
def toLowerStr (s : Str) : Str := s.map Char.toLower

/-- Go `strings.Replace s f t 1`: replace the first occurrence of `f`
by `t` (with an empty pattern, one insertion at the start). -/
def replaceFirst : Str → Str → Str → Str
  | s, [], t => t ++ s
  | [], _ :: _, _ => []
  | c :: rest, f₀ :: f, t =>
    if hasPrefixStr (c :: rest) (f₀ :: f) then
      t ++ List.drop (f₀ :: f).length (c :: rest)
    else c :: replaceFirst rest (f₀ :: f) t

/-- Membership of a string in a list of strings, as the Go code's
`map[string]bool` membership test. -/
def memStr (x : Str) : List Str → Bool
  | [] => false
  | y :: rest => if y = x then true else memStr x rest

/-- Go `strconv.Atoi` restricted to what the validator needs: an
optional sign followed by at least one decimal digit.  (Inputs large
enough to overflow Go's int fail Go's `Atoi`; in this model they
parse and then fail the 0–128 range check, giving the same verdict.) -/
def parseDigits : Str → Option Nat
  | [] => none
  | [c] => if '0' ≤ c ∧ c ≤ '9' then some (c.toNat - '0'.toNat) else none
  | c :: rest =>
    if '0' ≤ c ∧ c ≤ '9' then
      (parseDigits rest).map (fun n => (c.toNat - '0'.toNat) * 10 ^ rest.length + n)
    else none

/-- Signed integer parsing, Go `strconv.Atoi`. -/
def atoi : Str → Option Int
  | [] => none
  | '+' :: rest => (parseDigits rest).map Int.ofNat
  | '-' :: rest => (parseDigits rest).map (fun n => -(Int.ofNat n))
  | s => (parseDigits s).map Int.ofNat

/-! ### Canonicalizer and reconciler of the netmap manager (src/unnamed/part_002) -/

/-- The structural fields extracted by the netmap manager's
`normalizeRule` (Go locals `chain, iface, direction, source, dest,
target, toAddr`, all initially empty). -/
structure NormParts where
  chain : Str := []
  iface : Str := []
  direction : Str := []
  source : Str := []
  dest : Str := []
  target : Str := []
  toAddr : Str := []
deriving DecidableEq, Repr

/-- One step of the extraction switch: token `p` at position `i`,
token `v` at position `i+1`.  The Go loop does not skip the value
token, and later occurrences of a flag overwrite earlier ones. -/
def updParts (p v : Str) (acc : NormParts) : NormParts :=
  if p = str "-A" then { acc with chain := v }
  else if p = str "-i" then { acc with iface := v, direction := str "input" }
  else if p = str "-o" then { acc with iface := v, direction := str "output" }
  else if p = str "-s" then { acc with source := v }
  else if p = str "-d" then { acc with dest := v }
  else if p = str "-j" then { acc with target := v }
  else if p = str "--to" then { acc with toAddr := v }
  else acc

/-- The extraction loop of `normalizeRule`: a flag in the last position
has no following value and updates nothing. -/
def extractParts : List Str → NormParts → NormParts
  | p :: v :: rest, acc => extractParts (v :: rest) (updParts p v acc)
  | _, acc => acc

/-- The `fmt.Sprintf("%s|%s|%s|%s|%s|%s|%s", ...)` of `normalizeRule`:
chain lower-cased, direction, interface, source, destination, target
lower-cased, translation argument. -/
def renderKey (np : NormParts) : Str :=
  toLowerStr np.chain ++ '|' :: np.direction ++ '|' :: np.iface ++
    '|' :: np.source ++ '|' :: np.dest ++ '|' :: toLowerStr np.target ++
    '|' :: np.toAddr

/-- Go `normalizeRule` (netmap manager): the canonical comparison key of
a rule.  A rule of fewer than 6 whitespace-separated tokens is returned
verbatim. -/
def normalizeRule (rule : Str) : Str :=
  let parts := fields rule
  if parts.length < 6 then rule else renderKey (extractParts parts {})

/-- Go `smartDifference(originalSlice1, _, normalizedSlice1,
normalizedSlice2)`: walks the normalized first list, keeping the
original rule at the same index whenever the normalized form is absent
from the second normalized list.  (The second original slice is unused
in the source; indices past the end of `orig` contribute nothing.) -/
def smartDifference : List Str → List Str → List Str → List Str
  | o :: os, n :: ns, norm2 =>
    if memStr n norm2 then smartDifference os ns norm2
    else o :: smartDifference os ns norm2
  | [], _ :: _, _ => []
  | _, [], _ => []

/-! ### NAT manager (src/unnamed/part_003) -/

/-- Token normalization inside the NAT manager's `normalizeRule`. -/
def natNormToken (p : Str) : Str :=
  if p = str "0.0.0.0/0" ∨ p = str "anywhere" then str "0.0.0.0/0"
  else if p = str "::/0" then str "::/0"
  else p

/-- Go `normalizeRule` of the NAT manager: whitespace is normalized by
splitting into fields and re-joining with single spaces, and the
all-addresses literals are unified. -/
def normalizeNatRule (rule : Str) : Str :=
  joinSep ' ' ((fields rule).map natNormToken)

/-- Go `difference(slice1, slice2)`: the elements of `slice1` (with
multiplicity, in order) that do not occur in `slice2`. -/
def difference (slice1 slice2 : List Str) : List Str :=
  slice1.filter (fun item => !(memStr item slice2))

/-- The value held by a Go map after inserting the pairs in order:
the last binding of the key wins. -/
def lastAssoc (k : Str) : List (Str × Str) → Option Str
  | [] => none
  | (k', v) :: rest =>
    match lastAssoc k rest with
    | some v' => some v'
    | none => if k' = k then some v else none

/-! ### Executor models

External command invocation (`executeIp6tablesRule` /
`executeIptablesRule`) is abstracted by an oracle `ex : Str → Bool`
mapping a command line to success or failure; the models record the
exact sequence of invoked command lines. -/

/-- Outcome of the apply phase of `ApplyNetmapRules` (part_002,
lines 136–162). -/
structure ApplyResult where
  trace : List Str
  warnings : List Str
  failed : List Str
  err : Option (Nat × Nat)
deriving DecidableEq, Repr

/-- The removal loop of `ApplyNetmapRules`: each rule's first `"-A "`
is rewritten to `"-D "`, the command is invoked, and a failure is only
recorded as a warning. -/
def runNetmapRemoves (ex : Str → Bool) : List Str → List Str × List Str
  | [] => ([], [])
  | r :: rest =>
    let cmd := replaceFirst r (str "-A ") (str "-D ")
    let t := runNetmapRemoves ex rest
    (cmd :: t.1, if ex cmd then t.2 else cmd :: t.2)

/-- The addition loop of `ApplyNetmapRules`: every rule is invoked
unmodified; failing rules are collected in `failedRules`. -/
def runNetmapAdds (ex : Str → Bool) : List Str → List Str × List Str
  | [] => ([], [])
  | r :: rest =>
    let t := runNetmapAdds ex rest
    (r :: t.1, if ex r then t.2 else r :: t.2)

/-- The apply phase of `ApplyNetmapRules`: removals first, then
additions; the run errors only when additions failed, with the count of
failed rules and the total number of addition candidates. -/
def applyNetmapPhase (ex : Str → Bool) (toRemove toAdd : List Str) : ApplyResult :=
  let rem := runNetmapRemoves ex toRemove
  let add := runNetmapAdds ex toAdd
  { trace := rem.1 ++ add.1
    warnings := rem.2
    failed := add.2
    err := if add.2.isEmpty then none else some (add.2.length, toAdd.length) }

/-- Outcome of the NAT manager's `applyRuleChanges` (part_003). -/
structure NatRun where
  remTrace : List Str
  addTrace : List Str
  warnings : List Str
  err : Option Str
deriving DecidableEq, Repr

/-- The removal loop of `applyRuleChanges`: normalized keys are mapped
back through `removeMap`; a missing key invokes nothing, a failure is
only a warning. -/
def natRemovePhase (ex : Str → Bool) (removeMap : Str → Option Str) :
    List Str → List Str × List Str
  | [] => ([], [])
  | n :: rest =>
    match removeMap n with
    | some orig =>
      let cmd := replaceFirst orig (str "-A ") (str "-D ")
      let t := natRemovePhase ex removeMap rest
      (cmd :: t.1, if ex cmd then t.2 else cmd :: t.2)
    | none => natRemovePhase ex removeMap rest

/-- The addition loop of `applyRuleChanges`: on the first failing
addition the function returns the error at once, attempting no further
rule (fail-fast).  The error carries the failing original rule. -/
def natAddPhase (ex : Str → Bool) (addMap : Str → Option Str) :
    List Str → List Str × Option Str
  | [] => ([], none)
  | n :: rest =>
    match addMap n with
    | some orig =>
      if ex orig then
        let t := natAddPhase ex addMap rest
        (orig :: t.1, t.2)
      else ([orig], some orig)
    | none => natAddPhase ex addMap rest

/-- The fail-fast addition loop run directly over original rules. -/
def natAddRun (ex : Str → Bool) : List Str → List Str × Option Str
  | [] => ([], none)
  | o :: rest =>
    if ex o then
      let t := natAddRun ex rest
      (o :: t.1, t.2)
    else ([o], some o)

/-- Go `applyRuleChanges(currentRules, newRules)` of the NAT manager:
normalize both lists, diff the normalized lists, map the normalized
keys back to original rules through last-wins maps, remove then add. -/
def natApplyRuleChanges (ex : Str → Bool) (currentRules newRules : List Str) : NatRun :=
  let normalizedCurrent := currentRules.map normalizeNatRule
  let normalizedNew := newRules.map normalizeNatRule
  let rulesToAdd := difference normalizedNew normalizedCurrent
  let rulesToRemove := difference normalizedCurrent normalizedNew
  let addMap := fun k => lastAssoc k (normalizedNew.zip newRules)
  let removeMap := fun k => lastAssoc k (normalizedCurrent.zip currentRules)
  let rem := natRemovePhase ex removeMap rulesToRemove
  let add := natAddPhase ex addMap rulesToAdd
  { remTrace := rem.1, addTrace := add.1, warnings := rem.2, err := add.2 }

/-! ### Address expansion, validation and rule compilation
(src/link/netmap6/main.go) -/

/-- `RadvRoute` of link/netmap6. -/
structure RadvRoute where
  Preference : Str
  Metric : Int
  Lifetime : Int
  Pfx : Str
deriving DecidableEq, Repr

/-- `MapPair` of link/netmap6: a public/private address pair with an
optional advertisement-route annotation. -/
structure MapPair where
  Public : Str
  Private : Str
  Radv : Option RadvRoute
deriving DecidableEq, Repr

/-- `Netmap6` of link/netmap6. -/
structure Netmap6 where
  Name : Str
  Enabled : Bool
  PfxPub : Str
  PfxPriv : Str
  Maps : List MapPair
deriving DecidableEq, Repr

/-- Go `SimpleConcatAddress(addressPart, prefix)`: with an empty prefix
the address is returned unchanged; otherwise any CIDR part is split off
(`parts[0]` before the first `/`, suffix `"/" + parts[1]`), trailing
colons are stripped from the prefix, and the pieces are concatenated
with a single colon. -/
def SimpleConcatAddress (addressPart pfx : Str) : Str :=
  if pfx.isEmpty then addressPart
  else
    let ps :=
      if hasChar addressPart '/' then
        let parts := splitOnChar '/' addressPart
        (parts.headD [], '/' :: (parts.drop 1).headD [])
      else (addressPart, ([] : Str))
    trimRightColons pfx ++ ':' :: (ps.1 ++ ps.2)

/-- One hexadecimal digit, as checked by `isValidIPv6AddressFormat`. -/
def isHexChar (c : Char) : Bool :=
  ('0' ≤ c && c ≤ '9') || ('a' ≤ c && c ≤ 'f') || ('A' ≤ c && c ≤ 'F')

/-- The per-segment check of `isValidIPv6AddressFormat`: empty segments
(from compression) pass, others must be at most 4 hex characters. -/
def validSegment (seg : Str) : Bool :=
  seg.isEmpty || (decide (seg.length ≤ 4) && seg.all isHexChar)

/-- Go `isValidIPv6AddressFormat(ipPart)`: at least one colon, no
`:::`, at most one `::`; with compression at most 7 non-empty segments,
without compression exactly 8 segments; every segment at most 4 hex
characters. -/
def isValidIPv6AddressFormat (ipPart : Str) : Bool :=
  if !hasChar ipPart ':' then false
  else if containsSub ipPart (str ":::") then false
  else if 1 < countDoubleColon ipPart then false
  else
    let segments := splitOnChar ':' ipPart
    if containsSub ipPart (str "::") then
      if 7 < (segments.filter (fun s => !s.isEmpty)).length then false
      else segments.all validSegment
    else
      if segments.length ≠ 8 then false
      else segments.all validSegment

/-- Go `isValidIPv6Address(addr)`: empty addresses are invalid; a CIDR
suffix must be a single `/` followed by an integer in 0–128; the
remaining part must pass the structural format check. -/
def isValidIPv6Address (addr : Str) : Bool :=
  if addr.isEmpty then false
  else if hasChar addr '/' then
    match splitOnChar '/' addr with
    | [ipPart, plStr] =>
      match atoi plStr with
      | some pl => if pl < 0 ∨ 128 < pl then false else isValidIPv6AddressFormat ipPart
      | none => false
    | _ => false
  else isValidIPv6AddressFormat addr

/-- The outbound (POSTROUTING) rule text emitted for one mapping. -/
def postRule (interfaceName privateAddr publicAddr : Str) : Str :=
  str "ip6tables -t nat -A POSTROUTING -o " ++ interfaceName ++
    str " -s " ++ privateAddr ++ str " -j NETMAP --to " ++ publicAddr

/-- The inbound (PREROUTING) rule text emitted for one mapping. -/
def preRule (interfaceName publicAddr privateAddr : Str) : Str :=
  str "ip6tables -t nat -A PREROUTING -i " ++ interfaceName ++
    str " -d " ++ publicAddr ++ str " -j NETMAP --to " ++ privateAddr

/-- The mapping loop of `GenerateIp6tablesRules`: pairs with an empty
public or private address are skipped; otherwise the addresses are
expanded and the POSTROUTING rule is appended before the PREROUTING
rule. -/
def genRulesLoop (n : Netmap6) (interfaceName : Str) : List MapPair → List Str
  | [] => []
  | m :: rest =>
    if m.Public.isEmpty || m.Private.isEmpty then genRulesLoop n interfaceName rest
    else
      let publicAddr := SimpleConcatAddress m.Public n.PfxPub
      let privateAddr := SimpleConcatAddress m.Private n.PfxPriv
      postRule interfaceName privateAddr publicAddr ::
        preRule interfaceName publicAddr privateAddr ::
        genRulesLoop n interfaceName rest

/-- Go `(n *Netmap6) GenerateIp6tablesRules(interfaceName)`. -/
def GenerateIp6tablesRules (n : Netmap6) (interfaceName : Str) : List Str :=
  if !n.Enabled || interfaceName.isEmpty then []
  else genRulesLoop n interfaceName n.Maps

/-- The mapping loop of `GetRadvRoutes`: only annotated mappings whose
expanded public address passes `isValidIPv6Address` produce a route. -/
def radvRoutesLoop (n : Netmap6) : List MapPair → List RadvRoute
  | [] => []
  | m :: rest =>
    match m.Radv with
    | some rv =>
      let publicAddr := SimpleConcatAddress m.Public n.PfxPub
      if isValidIPv6Address publicAddr then
        { Pfx := publicAddr, Preference := rv.Preference,
          Metric := rv.Metric, Lifetime := rv.Lifetime } :: radvRoutesLoop n rest
      else radvRoutesLoop n rest
    | none => radvRoutesLoop n rest

/-- Go `(n *Netmap6) GetRadvRoutes()`. -/
def GetRadvRoutes (n : Netmap6) : List RadvRoute :=
  if !n.Enabled then [] else radvRoutesLoop n n.Maps

/-! ### Common-prefix inference (src/worker/config-maker/main.go) -/

/-- `NetmapMapping` of the config maker. -/
structure NetmapMapping where
  Public : Str
  Private : Str
deriving DecidableEq, Repr

/-- Removal of a CIDR suffix as done inside `findCommonIPv6Prefix`:
`strings.Split(addr, "/")[0]` when the address contains a slash. -/
def cleanAddr (a : Str) : Str :=
  if hasChar a '/' then (splitOnChar '/' a).headD [] else a

/-- The candidate prefix for a segment count `k`:
`strings.Join(segments[:k], ":") + ":"`. -/
def candidateOf (segments : List Str) (k : Nat) : Str :=
  joinSep ':' (segments.take k) ++ [':']

/-- Does every address (CIDR removed) start with the candidate?
(In the source a mismatch breaks the loop with `allMatch = false`;
since the result is only used conjoined with `allMatch`, checking all
addresses is extensionally the same.) -/
def allMatch (addresses : List Str) (cand : Str) : Bool :=
  addresses.all (fun a => hasPrefixStr (cleanAddr a) cand)

/-- Does stripping the candidate (and one following colon) leave some
address with a non-empty remainder different from the address itself? -/
def hasReduction (addresses : List Str) (cand : Str) : Bool :=
  addresses.any (fun a =>
    let c := cleanAddr a
    let remaining := trimPrefixStr (trimPrefixStr c cand) (str ":")
    !remaining.isEmpty && !(decide (remaining = c)))

/-- The `for prefixLen := 3; prefixLen >= 1; prefixLen--` loop of
`findCommonIPv6Prefix`: lengths exceeding the first address's segment
count are skipped; the first (longest) candidate matched by all
addresses with a real reduction is returned; otherwise `""`. -/
def findCommonLoop (addresses segments : List Str) : List Nat → Str
  | [] => []
  | k :: rest =>
    if k ≤ segments.length then
      let cand := candidateOf segments k
      if allMatch addresses cand && hasReduction addresses cand then cand
      else findCommonLoop addresses segments rest
    else findCommonLoop addresses segments rest

/-- Go `findCommonIPv6Prefix(mappings, isPublic)`: candidates are the
leading 3, 2, 1 segments of the first address (CIDR removed). -/
def findCommonIPv6Prefix (mappings : List NetmapMapping) (isPublic : Bool) : Str :=
  match mappings with
  | [] => []
  | first :: _ =>
    let addresses := mappings.map (fun m => if isPublic then m.Public else m.Private)
    let firstAddr := cleanAddr (if isPublic then first.Public else first.Private)
    let segments := splitOnChar ':' firstAddr
    findCommonLoop addresses segments [3, 2, 1]

/-! ### Helper lemmas -/

theorem memStr_iff (x : Str) : ∀ l : List Str, memStr x l = true ↔ x ∈ l
  | [] => by simp [memStr]
  | y :: rest => by
    by_cases h : y = x
    · simp [memStr, h]
    · have h' : ¬ x = y := fun hh => h hh.symm
      simp [memStr, h, h', memStr_iff x rest]

theorem smartDifference_eq_filter (f : Str → Str) :
    ∀ (D kO : List Str),
      smartDifference D (D.map f) kO = D.filter (fun r => !(memStr (f r) kO))
  | [], _ => rfl
  | r :: D, kO => by
    by_cases h : memStr (f r) kO = true
    · simp [smartDifference, h, smartDifference_eq_filter f D kO, List.filter_cons]
    · simp only [Bool.not_eq_true] at h
      simp [smartDifference, h, smartDifference_eq_filter f D kO, List.filter_cons]

theorem memStr_filter (k : Str) (p : Str → Bool) :
    ∀ l : List Str, memStr k (l.filter p) = (memStr k l && p k)
  | [] => by simp [memStr]
  | y :: rest => by
    by_cases hy : y = k
    · subst hy
      cases hp : p y <;> simp [List.filter_cons, hp, memStr, memStr_filter y p rest]
    · cases hp : p y <;>
        simp [List.filter_cons, hp, memStr, hy, memStr_filter k p rest]

theorem map_filter_comp (f : Str → Str) (q : Str → Bool) :
    ∀ l : List Str, (l.filter (fun r => q (f r))).map f = (l.map f).filter q
  | [] => rfl
  | r :: rest => by
    cases hq : q (f r) <;>
      simp [List.filter_cons, hq, map_filter_comp f q rest]

/-! ### Claim theorems -/

/-- C1: for every desired list `D` and observed list `O`, the diff
computes `toAdd` as exactly the rules of `D` whose canonical key is
absent from the keys of `O`, and `toRemove` as exactly the rules of `O`
whose key is absent from the keys of `D` (both for the netmap manager's
`smartDifference` and, at the key level, for the NAT manager's
`difference`); the key sets of `toAdd`, `toRemove` and the key
intersection are pairwise disjoint and cover the union of the keys. -/
theorem diff_partition_c1 (D O : List Str) :
    smartDifference D (D.map normalizeRule) (O.map normalizeRule)
      = D.filter (fun r => !(memStr (normalizeRule r) (O.map normalizeRule))) ∧
    smartDifference O (O.map normalizeRule) (D.map normalizeRule)
      = O.filter (fun r => !(memStr (normalizeRule r) (D.map normalizeRule))) ∧
    (∀ kD kO : List Str, ∀ k : Str,
      memStr k (difference kD kO) = (memStr k kD && !(memStr k kO))) ∧
    (∀ k : Str,
      memStr k ((smartDifference D (D.map normalizeRule) (O.map normalizeRule)).map normalizeRule)
        = (memStr k (D.map normalizeRule) && !(memStr k (O.map normalizeRule)))) ∧
    (∀ k : Str,
      memStr k ((smartDifference O (O.map normalizeRule) (D.map normalizeRule)).map normalizeRule)
        = (memStr k (O.map normalizeRule) && !(memStr k (D.map normalizeRule)))) ∧
    (∀ k : Str,
      (memStr k ((smartDifference D (D.map normalizeRule) (O.map normalizeRule)).map normalizeRule) &&
        memStr k ((smartDifference O (O.map normalizeRule) (D.map normalizeRule)).map normalizeRule)) = false) ∧
    (∀ k : Str,
      (memStr k ((smartDifference D (D.map normalizeRule) (O.map normalizeRule)).map normalizeRule) &&
        (memStr k (D.map normalizeRule) && memStr k (O.map normalizeRule))) = false) ∧
    (∀ k : Str,
      (memStr k ((smartDifference O (O.map normalizeRule) (D.map normalizeRule)).map normalizeRule) &&
        (memStr k (D.map normalizeRule) && memStr k (O.map normalizeRule))) = false) ∧
    (∀ k : Str,
      (memStr k (D.map normalizeRule) || memStr k (O.map normalizeRule))
        = (memStr k ((smartDifference D (D.map normalizeRule) (O.map normalizeRule)).map normalizeRule) ||
           memStr k ((smartDifference O (O.map normalizeRule) (D.map normalizeRule)).map normalizeRule) ||
           (memStr k (D.map normalizeRule) && memStr k (O.map normalizeRule)))) := by
  have hAdd := smartDifference_eq_filter normalizeRule D (O.map normalizeRule)
  have hRem := smartDifference_eq_filter normalizeRule O (D.map normalizeRule)
  have hAddKeys : ∀ k : Str,
      memStr k ((smartDifference D (D.map normalizeRule) (O.map normalizeRule)).map normalizeRule)
        = (memStr k (D.map normalizeRule) && !(memStr k (O.map normalizeRule))) := by
    intro k
    rw [hAdd,
      map_filter_comp normalizeRule (fun x => !(memStr x (O.map normalizeRule))) D,
      memStr_filter]
  have hRemKeys : ∀ k : Str,
      memStr k ((smartDifference O (O.map normalizeRule) (D.map normalizeRule)).map normalizeRule)
        = (memStr k (O.map normalizeRule) && !(memStr k (D.map normalizeRule))) := by
    intro k
    rw [hRem,
      map_filter_comp normalizeRule (fun x => !(memStr x (D.map normalizeRule))) O,
      memStr_filter]
  refine ⟨hAdd, hRem, ?_, hAddKeys, hRemKeys, ?_, ?_, ?_, ?_⟩
  · intro kD kO k
    exact memStr_filter k _ kD
  · intro k
    rw [hAddKeys k, hRemKeys k]
    cases memStr k (D.map normalizeRule) <;> cases memStr k (O.map normalizeRule) <;> rfl
  · intro k
    rw [hAddKeys k]
    cases memStr k (D.map normalizeRule) <;> cases memStr k (O.map normalizeRule) <;> rfl
  · intro k
    rw [hRemKeys k]
    cases memStr k (D.map normalizeRule) <;> cases memStr k (O.map normalizeRule) <;> rfl
  · intro k
    rw [hAddKeys k, hRemKeys k]
    cases memStr k (D.map normalizeRule) <;> cases memStr k (O.map normalizeRule) <;> rfl

/-- Modelled from the spec (§4.3), for comparison with the code's
canonicalizer: the tuple the spec says the key is built from — chain
(case-insensitive), direction, interface, the *single* address field
relevant to the direction (destination for inbound rules, source for
outbound rules), target (case-insensitive), target argument. -/
def specCanonicalTuple (rule : Str) : Str × Str × Str × Str × Str × Str :=
  let np := extractParts (fields rule) {}
  (toLowerStr np.chain, np.direction, np.iface,
   if np.direction = str "input" then np.dest else np.source,
   toLowerStr np.target, np.toAddr)

/-- C2 counterexample: two raw rules with the same spec tuple (chain,
direction, interface, direction-relevant address, target, argument) get
different keys, because the code's key also contains the address field
irrelevant to the direction; and a rule of fewer than 6 tokens has its
raw text as its key. -/
theorem normalizeRule_not_spec_tuple_c2 :
    specCanonicalTuple
        (str "ip6tables -t nat -A PREROUTING -i eth0 -d 2001:db8::1 -j NETMAP --to fd00::1")
      = specCanonicalTuple
        (str "ip6tables -t nat -A PREROUTING -i eth0 -s 1::2 -d 2001:db8::1 -j NETMAP --to fd00::1") ∧
    normalizeRule
        (str "ip6tables -t nat -A PREROUTING -i eth0 -d 2001:db8::1 -j NETMAP --to fd00::1")
      ≠ normalizeRule
        (str "ip6tables -t nat -A PREROUTING -i eth0 -s 1::2 -d 2001:db8::1 -j NETMAP --to fd00::1") ∧
    normalizeRule (str "-A X") = str "-A X" := by
  refine ⟨by decide, by decide, by decide⟩

/-- C2 (amended): for rules of at least 6 whitespace-separated tokens
the key is built from the extracted structural fields only, in the
fixed order chain (case-insensitive), direction, interface, source,
destination, target (case-insensitive), target argument — both address
fields, not only the one relevant to the direction — so two raw rules
with the same extracted fields get identical keys; a rule of fewer
than 6 tokens keeps its raw text as its key. -/
theorem normalizeRule_structural_c2 (r1 r2 : Str) :
    ((fields r1).length < 6 → normalizeRule r1 = r1) ∧
    (¬ (fields r1).length < 6 →
      normalizeRule r1 = renderKey (extractParts (fields r1) {})) ∧
    (¬ (fields r1).length < 6 → ¬ (fields r2).length < 6 →
      extractParts (fields r1) {} = extractParts (fields r2) {} →
      normalizeRule r1 = normalizeRule r2) := by
  refine ⟨fun h => ?_, fun h => ?_, fun h1 h2 heq => ?_⟩
  · simp [normalizeRule, h]
  · simp [normalizeRule, h]
  · simp [normalizeRule, h1, h2, heq]

/-- Witness for C2 (amended): two textually different raw rules (extra
spaces) with the same extracted fields canonicalize identically. -/
theorem normalizeRule_structural_c2_witness :
    normalizeRule
        (str "ip6tables -t nat -A PREROUTING -i eth0 -d 2001:db8::1 -j NETMAP --to fd00::1")
      = normalizeRule
        (str "ip6tables  -t  nat  -A PREROUTING  -i eth0  -d 2001:db8::1  -j NETMAP  --to fd00::1") :=
  (normalizeRule_structural_c2
      (str "ip6tables -t nat -A PREROUTING -i eth0 -d 2001:db8::1 -j NETMAP --to fd00::1")
      (str "ip6tables  -t  nat  -A PREROUTING  -i eth0  -d 2001:db8::1  -j NETMAP  --to fd00::1")).2.2
    (by decide) (by decide) (by decide)

theorem filter_ext (p q : Str → Bool) :
    ∀ l : List Str, (∀ r ∈ l, p r = q r) → l.filter p = l.filter q
  | [], _ => rfl
  | r :: rest, h => by
    have hr := h r (by simp)
    have hrest := filter_ext p q rest (fun x hx => h x (by simp [hx]))
    simp [List.filter_cons, hr, hrest]

theorem runNetmapRemoves_spec (ex : Str → Bool) :
    ∀ l : List Str,
      (runNetmapRemoves ex l).1
        = l.map (fun r => replaceFirst r (str "-A ") (str "-D ")) ∧
      (runNetmapRemoves ex l).2
        = (l.map (fun r => replaceFirst r (str "-A ") (str "-D "))).filter (fun c => !(ex c))
  | [] => by simp [runNetmapRemoves]
  | r :: rest => by
    have ih := runNetmapRemoves_spec ex rest
    cases hc : ex (replaceFirst r (str "-A ") (str "-D ")) <;>
      simp [runNetmapRemoves, hc, ih.1, ih.2, List.filter_cons]

theorem runNetmapAdds_spec (ex : Str → Bool) :
    ∀ l : List Str,
      (runNetmapAdds ex l).1 = l ∧
      (runNetmapAdds ex l).2 = l.filter (fun r => !(ex r))
  | [] => by simp [runNetmapAdds]
  | r :: rest => by
    have ih := runNetmapAdds_spec ex rest
    cases hc : ex r <;> simp [runNetmapAdds, hc, ih.1, ih.2, List.filter_cons]

theorem natRemovePhase_spec (ex : Str → Bool) (removeMap : Str → Option Str) :
    ∀ l : List Str,
      (natRemovePhase ex removeMap l).1
        = (l.filterMap removeMap).map (fun r => replaceFirst r (str "-A ") (str "-D ")) ∧
      (natRemovePhase ex removeMap l).2
        = ((l.filterMap removeMap).map
            (fun r => replaceFirst r (str "-A ") (str "-D "))).filter (fun c => !(ex c))
  | [] => by simp [natRemovePhase]
  | n :: rest => by
    have ih := natRemovePhase_spec ex removeMap rest
    cases hm : removeMap n with
    | none => simp [natRemovePhase, hm, ih.1, ih.2, List.filterMap_cons]
    | some orig =>
      cases hc : ex (replaceFirst orig (str "-A ") (str "-D ")) <;>
        simp [natRemovePhase, hm, hc, ih.1, ih.2, List.filterMap_cons, List.filter_cons]

theorem natAddPhase_eq_run (ex : Str → Bool) (addMap : Str → Option Str) :
    ∀ l : List Str, natAddPhase ex addMap l = natAddRun ex (l.filterMap addMap)
  | [] => rfl
  | n :: rest => by
    cases hm : addMap n with
    | none => simp [natAddPhase, hm, natAddPhase_eq_run ex addMap rest, List.filterMap_cons]
    | some orig =>
      cases hc : ex orig <;>
        simp [natAddPhase, natAddRun, hm, hc, natAddPhase_eq_run ex addMap rest,
          List.filterMap_cons]

theorem natAddRun_congr (ex1 ex2 : Str → Bool) :
    ∀ l : List Str, (∀ r ∈ l, ex1 r = ex2 r) → natAddRun ex1 l = natAddRun ex2 l
  | [], _ => rfl
  | o :: rest, h => by
    have ho := h o (by simp)
    have hrest := natAddRun_congr ex1 ex2 rest (fun x hx => h x (by simp [hx]))
    cases hc : ex2 o <;> simp [natAddRun, ho, hc, hrest]

theorem lastAssoc_mem (k : Str) :
    ∀ (l : List (Str × Str)) (v : Str), lastAssoc k l = some v → v ∈ l.map Prod.snd
  | [], v => by simp [lastAssoc]
  | (k', v') :: rest, v => by
    intro h
    simp only [lastAssoc] at h
    cases hrest : lastAssoc k rest with
    | some v'' =>
      rw [hrest] at h
      cases h
      exact List.mem_cons_of_mem _ (lastAssoc_mem k rest v hrest)
    | none =>
      rw [hrest] at h
      by_cases hk : k' = k
      · simp [hk] at h
        simp [h]
      · simp [hk] at h

theorem lastAssoc_zip_mem (k : Str) (xs ys : List Str) (v : Str)
    (h : lastAssoc k (xs.zip ys) = some v) : v ∈ ys := by
  have hmem := lastAssoc_mem k (xs.zip ys) v h
  rcases List.mem_map.1 hmem with ⟨p, hp, hsnd⟩
  rcases p with ⟨a, b⟩
  cases hsnd
  exact (List.of_mem_zip hp).2

theorem natAddPhase_congr_on (ex1 ex2 : Str → Bool) (xs ys : List Str)
    (h : ∀ r ∈ ys, ex1 r = ex2 r) (l : List Str) :
    natAddPhase ex1 (fun k => lastAssoc k (xs.zip ys)) l
      = natAddPhase ex2 (fun k => lastAssoc k (xs.zip ys)) l := by
  rw [natAddPhase_eq_run, natAddPhase_eq_run]
  apply natAddRun_congr
  intro r hr
  rcases List.mem_filterMap.1 hr with ⟨k, _, hk⟩
  exact h r (lastAssoc_zip_mem k xs ys r hk)

/-- C3: the netmap executor applies every member of `toRemove`, its
first `"-A "` rewritten to `"-D "`, strictly before every member of
`toAdd`, which it applies unmodified; the full sequence of invocations
does not depend on the oracle at all (so no failure prevents later
removals or additions), removal failures are recorded only as warnings,
and the run's error is unchanged by removal outcomes.  The NAT
executor's removal loop likewise attempts every mapped removal,
rewritten, treats failures as warnings, and its addition outcomes are
unchanged by removal outcomes. -/
theorem executor_order_c3 (ex ex1 ex2 : Str → Bool) (toRemove toAdd : List Str)
    (removeMap : Str → Option Str) (currentRules newRules : List Str) :
    (applyNetmapPhase ex toRemove toAdd).trace
      = toRemove.map (fun r => replaceFirst r (str "-A ") (str "-D ")) ++ toAdd ∧
    (applyNetmapPhase ex toRemove toAdd).warnings
      = (toRemove.map (fun r => replaceFirst r (str "-A ") (str "-D "))).filter
          (fun c => !(ex c)) ∧
    ((∀ r ∈ toAdd, ex1 r = ex2 r) →
      (applyNetmapPhase ex1 toRemove toAdd).trace
          = (applyNetmapPhase ex2 toRemove toAdd).trace ∧
      (applyNetmapPhase ex1 toRemove toAdd).failed
          = (applyNetmapPhase ex2 toRemove toAdd).failed ∧
      (applyNetmapPhase ex1 toRemove toAdd).err
          = (applyNetmapPhase ex2 toRemove toAdd).err) ∧
    (natRemovePhase ex removeMap toRemove).1
      = (toRemove.filterMap removeMap).map
          (fun r => replaceFirst r (str "-A ") (str "-D ")) ∧
    (natRemovePhase ex removeMap toRemove).2
      = ((toRemove.filterMap removeMap).map
          (fun r => replaceFirst r (str "-A ") (str "-D "))).filter (fun c => !(ex c)) ∧
    ((∀ r ∈ newRules, ex1 r = ex2 r) →
      (natApplyRuleChanges ex1 currentRules newRules).addTrace
          = (natApplyRuleChanges ex2 currentRules newRules).addTrace ∧
      (natApplyRuleChanges ex1 currentRules newRules).err
          = (natApplyRuleChanges ex2 currentRules newRules).err) := by
  have hrem := runNetmapRemoves_spec ex toRemove
  have hadd1 := runNetmapAdds_spec ex1 toAdd
  have hadd2 := runNetmapAdds_spec ex2 toAdd
  have hnat := natRemovePhase_spec ex removeMap toRemove
  refine ⟨?_, hrem.2, fun hagree => ?_, hnat.1, hnat.2, fun hagree => ?_⟩
  · have ha := runNetmapAdds_spec ex toAdd
    simp [applyNetmapPhase, hrem.1, ha.1]
  · have hfail : (runNetmapAdds ex1 toAdd).2 = (runNetmapAdds ex2 toAdd).2 := by
      rw [hadd1.2, hadd2.2]
      exact filter_ext _ _ toAdd (fun r hr => by rw [hagree r hr])
    have hrem1 := runNetmapRemoves_spec ex1 toRemove
    have hrem2 := runNetmapRemoves_spec ex2 toRemove
    refine ⟨?_, ?_, ?_⟩
    · simp [applyNetmapPhase, hrem1.1, hrem2.1, hadd1.1, hadd2.1]
    · simp [applyNetmapPhase, hfail]
    · simp [applyNetmapPhase, hfail]
  · have hph := natAddPhase_congr_on ex1 ex2
      (newRules.map normalizeNatRule) newRules hagree
      (difference (newRules.map normalizeNatRule) (currentRules.map normalizeNatRule))
    constructor <;> simp [natApplyRuleChanges, hph]

/-- Witness for C3: with oracles differing only on the rewritten
removal command, the run's addition failures and final error agree. -/
theorem executor_order_c3_witness :
    (applyNetmapPhase (fun _ => false) [str "-A r x y z w q"] [str "addrule"]).err
      = (applyNetmapPhase (fun c => decide (c = str "-D r x y z w q"))
          [str "-A r x y z w q"] [str "addrule"]).err :=
  ((executor_order_c3 (fun _ => true) (fun _ => false)
      (fun c => decide (c = str "-D r x y z w q"))
      [str "-A r x y z w q"] [str "addrule"] (fun _ => none) [] []).2.2.1
    (by decide)).2.2

/-- C4 counterexample: with every command failing, the NAT executor's
run over two distinct desired rules invokes only the first one — the
second member of `toAdd` is never attempted — and the error reported is
the single failing rule, not an aggregate count over all candidates. -/
theorem natAdd_fail_fast_c4 :
    difference
        ([str "iptables -t nat -A POSTROUTING -o eth0 -j MASQUERADE",
          str "iptables -t nat -A POSTROUTING -o eth1 -j MASQUERADE"].map normalizeNatRule)
        (([] : List Str).map normalizeNatRule)
      = [str "iptables -t nat -A POSTROUTING -o eth0 -j MASQUERADE",
         str "iptables -t nat -A POSTROUTING -o eth1 -j MASQUERADE"] ∧
    (natApplyRuleChanges (fun _ => false) []
        [str "iptables -t nat -A POSTROUTING -o eth0 -j MASQUERADE",
         str "iptables -t nat -A POSTROUTING -o eth1 -j MASQUERADE"]).addTrace
      = [str "iptables -t nat -A POSTROUTING -o eth0 -j MASQUERADE"] ∧
    (natApplyRuleChanges (fun _ => false) []
        [str "iptables -t nat -A POSTROUTING -o eth0 -j MASQUERADE",
         str "iptables -t nat -A POSTROUTING -o eth1 -j MASQUERADE"]).err
      = some (str "iptables -t nat -A POSTROUTING -o eth0 -j MASQUERADE") := by
  refine ⟨by decide, by decide, by decide⟩

/-- C4 (amended): the netmap executor attempts every member of `toAdd`
even when some fail, collects the failing rules, and errors once, with
the count of failed rules and the total attempted; the NAT executor
instead returns at the first addition failure, attempting none of the
remaining candidates. -/
theorem add_failure_policies_c4 (ex : Str → Bool) (toRemove toAdd rest : List Str)
    (addMap : Str → Option Str) (n o : Str) :
    (applyNetmapPhase ex toRemove toAdd).failed = toAdd.filter (fun r => !(ex r)) ∧
    (applyNetmapPhase ex toRemove toAdd).err
      = (if (toAdd.filter (fun r => !(ex r))).isEmpty then none
         else some ((toAdd.filter (fun r => !(ex r))).length, toAdd.length)) ∧
    (addMap n = some o → ex o = false →
      natAddPhase ex addMap (n :: rest) = ([o], some o)) := by
  have ha := runNetmapAdds_spec ex toAdd
  refine ⟨by simp [applyNetmapPhase, ha.2], by simp [applyNetmapPhase, ha.2],
    fun hm ho => by simp [natAddPhase, hm, ho]⟩

/-- Witness for C4 (amended): a failing first addition ends the NAT
add loop immediately. -/
theorem add_failure_policies_c4_witness :
    natAddPhase (fun _ => false) (fun _ => some (str "a")) [str "k", str "k2"]
      = ([str "a"], some (str "a")) :=
  (add_failure_policies_c4 (fun _ => false) [] [] [str "k2"]
      (fun _ => some (str "a")) (str "k") (str "a")).2.2 rfl rfl

theorem splitOnChar_of_not_mem (c : Char) :
    ∀ s : Str, hasChar s c = false → splitOnChar c s = [s]
  | [], _ => rfl
  | d :: rest, h => by
    have hd : ¬ d = c := by
      intro hh
      simp [hasChar, hh] at h
    have hrest : hasChar rest c = false := by
      simpa [hasChar, hd] using h
    simp [splitOnChar, hd, splitOnChar_of_not_mem c rest hrest]

theorem splitOnChar_append (suf : Str) :
    ∀ body : Str, hasChar body '/' = false →
      splitOnChar '/' (body ++ '/' :: suf) = body :: splitOnChar '/' suf
  | [], _ => by simp [splitOnChar]
  | d :: rest, h => by
    have hd : ¬ d = '/' := by
      intro hh
      simp [hasChar, hh] at h
    have hrest : hasChar rest '/' = false := by
      simpa [hasChar, hd] using h
    simp [splitOnChar, hd, splitOnChar_append suf rest hrest]

theorem hasChar_append_sep : ∀ body suf : Str, hasChar (body ++ '/' :: suf) '/' = true
  | [], suf => by simp [hasChar]
  | d :: rest, suf => by
    by_cases hd : d = '/' <;> simp [hasChar, hd, hasChar_append_sep rest suf]

/-- C5: address expansion returns the address unchanged when the prefix
is empty; with a non-empty prefix it strips the prefix's trailing
colons and returns prefix + ":" + address-body + restored CIDR suffix
(slash-free addresses are taken whole); the function is pure, and on
`expand("20:0:0/96", "2001:db8:1::")` it yields
`"2001:db8:1:20:0:0/96"`, preserving the `/96` suffix. -/
theorem address_expansion_c5 (a body suf p : Str) :
    SimpleConcatAddress a [] = a ∧
    (p.isEmpty = false → hasChar a '/' = false →
      SimpleConcatAddress a p = trimRightColons p ++ ':' :: a) ∧
    (p.isEmpty = false → hasChar body '/' = false → hasChar suf '/' = false →
      SimpleConcatAddress (body ++ '/' :: suf) p
        = trimRightColons p ++ ':' :: (body ++ '/' :: suf)) ∧
    SimpleConcatAddress (str "20:0:0/96") (str "2001:db8:1::")
      = str "2001:db8:1:20:0:0/96" := by
  refine ⟨by simp [SimpleConcatAddress], fun hp ha => ?_, fun hp hb hs => ?_, by decide⟩
  · simp [SimpleConcatAddress, hp, ha]
  · have h2 := splitOnChar_append suf body hb
    have h3 := splitOnChar_of_not_mem '/' suf hs
    simp [SimpleConcatAddress, hp, hasChar_append_sep body suf, h2, h3]

/-- Witness for C5: the CIDR-splitting branch at the spec's example. -/
theorem address_expansion_c5_witness :
    SimpleConcatAddress (str "20:0:0" ++ '/' :: str "96") (str "2001:db8:1::")
      = trimRightColons (str "2001:db8:1::") ++ ':' :: (str "20:0:0" ++ '/' :: str "96") :=
  (address_expansion_c5 (str "x") (str "20:0:0") (str "96") (str "2001:db8:1::")).2.2.1
    (by decide) (by decide) (by decide)

/-- Modelled from the spec (§4.4 / §8), for comparison with the code's
validator: accept iff the address has at least one segment separator,
at most one compressed-zero marker (and no `:::`), resolves — counting
non-empty segments under compression — to at most 8 segments of at most
4 hex characters each, and any CIDR suffix is an integer in 0–128. -/
def specAcceptsIPv6 (addr : Str) : Bool :=
  let p :=
    if hasChar addr '/' then
      match splitOnChar '/' addr with
      | [ip, pl] =>
        (ip, match atoi pl with
             | some n => decide (0 ≤ n ∧ n ≤ 128)
             | none => false)
      | _ => (addr, false)
    else (addr, true)
  p.2 && hasChar p.1 ':' && !containsSub p.1 (str ":::") &&
    decide (countDoubleColon p.1 ≤ 1) &&
    decide (((splitOnChar ':' p.1).filter (fun s => !s.isEmpty)).length ≤ 8) &&
    (splitOnChar ':' p.1).all validSegment

/-- C6 counterexample: `"1:2"` meets every criterion of the claim (one
separator, no compression marker, 2 ≤ 8 segments, 1-character hex
segments, no CIDR), yet the code rejects it: without compression the
validator demands exactly 8 segments, not at most 8. -/
theorem ipv6_validation_not_iff_c6 :
    specAcceptsIPv6 (str "1:2") = true ∧
    isValidIPv6Address (str "1:2") = false := by
  refine ⟨by decide, by decide⟩

/-- C6 (amended): the validator accepts exactly the addresses whose
optional CIDR suffix is one `/` followed by an integer in 0–128 and
whose address part has a separator, no `:::`, at most one `::`, at most
7 non-empty segments under compression but exactly 8 segments without
compression, every segment at most 4 hex characters; in particular
`:::`, a second `::`, and a 5-hex-character segment are rejected. -/
theorem ipv6_validation_c6 (addr ip : Str) :
    (isValidIPv6AddressFormat ip = true ↔
      (hasChar ip ':' = true ∧ containsSub ip (str ":::") = false ∧
       countDoubleColon ip ≤ 1 ∧
       (∀ seg ∈ splitOnChar ':' ip, validSegment seg = true) ∧
       (containsSub ip (str "::") = true →
         ((splitOnChar ':' ip).filter (fun s => !s.isEmpty)).length ≤ 7) ∧
       (containsSub ip (str "::") = false → (splitOnChar ':' ip).length = 8))) ∧
    (isValidIPv6Address addr = true ↔
      (addr.isEmpty = false ∧
       ((hasChar addr '/' = false ∧ isValidIPv6AddressFormat addr = true) ∨
        (∃ ipPart plStr : Str, splitOnChar '/' addr = [ipPart, plStr] ∧
          ∃ n : Int, atoi plStr = some n ∧ 0 ≤ n ∧ n ≤ 128 ∧
            isValidIPv6AddressFormat ipPart = true)))) ∧
    isValidIPv6Address (str "1:::2") = false ∧
    isValidIPv6Address (str "1::2::3:4") = false ∧
    isValidIPv6Address (str "1:12345:3:4:5:6:7:8") = false := by
  have hfmt : ∀ x : Str, isValidIPv6AddressFormat x = true ↔
      (hasChar x ':' = true ∧ containsSub x (str ":::") = false ∧
       countDoubleColon x ≤ 1 ∧
       (∀ seg ∈ splitOnChar ':' x, validSegment seg = true) ∧
       (containsSub x (str "::") = true →
         ((splitOnChar ':' x).filter (fun s => !s.isEmpty)).length ≤ 7) ∧
       (containsSub x (str "::") = false → (splitOnChar ':' x).length = 8)) := by
    intro x
    unfold isValidIPv6AddressFormat
    cases h1 : hasChar x ':'
    · simp [h1]
    · cases h2 : containsSub x (str ":::")
      · by_cases h3 : 1 < countDoubleColon x
        · have h3' : ¬ countDoubleColon x ≤ 1 := Nat.not_le.2 h3
          simp [h1, h2, h3, h3']
        · cases h4 : containsSub x (str "::")
          · by_cases h6 : (splitOnChar ':' x).length = 8
            · simp [h1, h2, h3, h4, h6, Nat.not_lt.1 h3, List.all_eq_true]
            · simp [h1, h2, h3, h4, h6, Nat.not_lt.1 h3]
          · by_cases h5 : 7 < ((splitOnChar ':' x).filter (fun s => !s.isEmpty)).length
            · have h5' : ¬ ((splitOnChar ':' x).filter (fun s => !s.isEmpty)).length ≤ 7 :=
                Nat.not_le.2 h5
              simp [h1, h2, h3, h4, h5, h5', Nat.not_lt.1 h3]
            · simp [h1, h2, h3, h4, h5, Nat.not_lt.1 h3, Nat.not_lt.1 h5,
                List.all_eq_true]
      · simp [h1, h2]
  refine ⟨hfmt ip, ?_, by decide, by decide, by decide⟩
  cases he : addr.isEmpty
  · cases hs : hasChar addr '/'
    · have hone : splitOnChar '/' addr = [addr] := splitOnChar_of_not_mem '/' addr hs
      constructor
      · intro hv
        refine ⟨rfl, Or.inl ⟨rfl, ?_⟩⟩
        simpa [isValidIPv6Address, he, hs] using hv
      · rintro ⟨-, ⟨-, hf⟩ | ⟨ip1, pl1, hlist, -⟩⟩
        · simpa [isValidIPv6Address, he, hs] using hf
        · rw [hone] at hlist
          simp at hlist
    · rcases hsp : splitOnChar '/' addr with _ | ⟨a, _ | ⟨b, _ | ⟨c, rest⟩⟩⟩
      · simp [isValidIPv6Address, he, hs, hsp]
      · simp [isValidIPv6Address, he, hs, hsp]
      · cases hat : atoi b with
        | none => simp [isValidIPv6Address, he, hs, hsp, hat]
        | some n =>
          by_cases hn : n < 0 ∨ 128 < n
          · constructor
            · intro hv
              exfalso
              simp [isValidIPv6Address, he, hs, hsp, hat, hn] at hv
            · rintro ⟨-, ⟨hczero, -⟩ | ⟨ip1, pl1, hlist, m, hm, hm0, hm128, -⟩⟩
              · exact absurd hczero (by simp)
              · simp at hlist
                rw [← hlist.2] at hm
                rw [hat] at hm
                cases hm
                rcases hn with hn | hn <;> omega
          · have hL : isValidIPv6Address addr = isValidIPv6AddressFormat a := by
              simp [isValidIPv6Address, he, hs, hsp, hat, hn]
            rw [hL]
            rcases not_or.1 hn with ⟨hn0, hn128⟩
            constructor
            · intro hv
              exact ⟨rfl, Or.inr ⟨a, b, rfl, n, hat, by omega, by omega, hv⟩⟩
            · rintro ⟨-, ⟨hczero, -⟩ | ⟨ip1, pl1, hlist, m, hm, hm0, hm128, hf⟩⟩
              · exact absurd hczero (by simp)
              · simp at hlist
                rw [← hlist.1] at hf
                exact hf
      · simp [isValidIPv6Address, he, hs, hsp]
  · simp [isValidIPv6Address, he]

theorem genRulesLoop_eq (n : Netmap6) (iface : Str) :
    ∀ maps : List MapPair,
      genRulesLoop n iface maps
        = maps.flatMap (fun m =>
            if m.Public.isEmpty || m.Private.isEmpty then []
            else
              [postRule iface (SimpleConcatAddress m.Private n.PfxPriv)
                 (SimpleConcatAddress m.Public n.PfxPub),
               preRule iface (SimpleConcatAddress m.Public n.PfxPub)
                 (SimpleConcatAddress m.Private n.PfxPriv)])
  | [] => by simp [genRulesLoop]
  | m :: rest => by
    by_cases hm : (m.Public.isEmpty || m.Private.isEmpty) = true
    · have hm' : m.Public = [] ∨ m.Private = [] := by simpa using hm
      simp [genRulesLoop, hm, hm', genRulesLoop_eq n iface rest]
    · have hm' : ¬ (m.Public = [] ∨ m.Private = []) := by simpa using hm
      simp only [Bool.not_eq_true] at hm
      simp [genRulesLoop, hm, hm', genRulesLoop_eq n iface rest]

theorem radvRoutesLoop_eq (n : Netmap6) :
    ∀ maps : List MapPair,
      radvRoutesLoop n maps
        = maps.filterMap (fun m =>
            match m.Radv with
            | some rv =>
              if isValidIPv6Address (SimpleConcatAddress m.Public n.PfxPub) then
                some { Pfx := SimpleConcatAddress m.Public n.PfxPub,
                       Preference := rv.Preference, Metric := rv.Metric,
                       Lifetime := rv.Lifetime }
              else none
            | none => none)
  | [] => by simp [radvRoutesLoop]
  | m :: rest => by
    cases hr : m.Radv with
    | none => simp [radvRoutesLoop, hr, radvRoutesLoop_eq n rest, List.filterMap_cons]
    | some rv =>
      cases hv : isValidIPv6Address (SimpleConcatAddress m.Public n.PfxPub) <;>
        simp [radvRoutesLoop, hr, hv, radvRoutesLoop_eq n rest, List.filterMap_cons]

/-- C7: a disabled mapping set or empty interface name compiles to no
rules; otherwise each pair with both raw addresses non-empty yields
exactly two rules — the outbound POSTROUTING rule first, then the
inbound PREROUTING rule, both for the owning interface, with the
expanded addresses — and a pair with a missing address yields nothing
(and no error is possible: the compiler is total). -/
theorem rule_compiler_c7 (n : Netmap6) (interfaceName : Str) :
    (n.Enabled = false ∨ interfaceName.isEmpty = true →
      GenerateIp6tablesRules n interfaceName = []) ∧
    (n.Enabled = true → interfaceName.isEmpty = false →
      GenerateIp6tablesRules n interfaceName
        = n.Maps.flatMap (fun m =>
            if m.Public.isEmpty || m.Private.isEmpty then []
            else
              [postRule interfaceName (SimpleConcatAddress m.Private n.PfxPriv)
                 (SimpleConcatAddress m.Public n.PfxPub),
               preRule interfaceName (SimpleConcatAddress m.Public n.PfxPub)
                 (SimpleConcatAddress m.Private n.PfxPriv)])) := by
  constructor
  · rintro (h | h) <;> simp [GenerateIp6tablesRules, h]
  · intro he hi
    simp [GenerateIp6tablesRules, he, hi, genRulesLoop_eq]

/-- Witness for C7: one complete pair compiles to its two rules. -/
theorem rule_compiler_c7_witness :
    GenerateIp6tablesRules
        { Name := str "nm", Enabled := true, PfxPub := str "2001:db8::",
          PfxPriv := str "fd00::",
          Maps := [{ Public := str "20:0:0", Private := str "20:0:0", Radv := none }] }
        (str "eth0")
      = [{ Public := str "20:0:0", Private := str "20:0:0",
           Radv := none : MapPair }].flatMap (fun m =>
          if m.Public.isEmpty || m.Private.isEmpty then []
          else
            [postRule (str "eth0") (SimpleConcatAddress m.Private (str "fd00::"))
               (SimpleConcatAddress m.Public (str "2001:db8::")),
             preRule (str "eth0") (SimpleConcatAddress m.Public (str "2001:db8::"))
               (SimpleConcatAddress m.Private (str "fd00::"))]) :=
  (rule_compiler_c7
      { Name := str "nm", Enabled := true, PfxPub := str "2001:db8::",
        PfxPriv := str "fd00::",
        Maps := [{ Public := str "20:0:0", Private := str "20:0:0", Radv := none }] }
      (str "eth0")).2 rfl rfl

/-- C8 counterexample: a mapping pair whose expanded public address
fails the structural IPv6 validation is *not* dropped by the rule
compiler — both its rules are still emitted. -/
theorem compiler_not_validating_c8 :
    isValidIPv6Address (SimpleConcatAddress (str "zzzz") (str "2001:db8::")) = false ∧
    (GenerateIp6tablesRules
        { Name := str "nm", Enabled := true, PfxPub := str "2001:db8::",
          PfxPriv := str "fd00::",
          Maps := [{ Public := str "zzzz", Private := str "1", Radv := none }] }
        (str "eth0")).length = 2 := by
  refine ⟨by decide, by decide⟩

/-- C8 (amended): the rule compiler drops a pair only when a raw
address is empty and never validates the expanded addresses; the
validation filtering lives in advertisement-route generation, where a
mapping contributes a route exactly when it carries an annotation and
its expanded public address passes `isValidIPv6Address` — failing
mappings are dropped with no error. -/
theorem radv_validation_c8 (n : Netmap6) (interfaceName : Str) :
    (n.Enabled = false → GetRadvRoutes n = []) ∧
    (n.Enabled = true →
      GetRadvRoutes n
        = n.Maps.filterMap (fun m =>
            match m.Radv with
            | some rv =>
              if isValidIPv6Address (SimpleConcatAddress m.Public n.PfxPub) then
                some { Pfx := SimpleConcatAddress m.Public n.PfxPub,
                       Preference := rv.Preference, Metric := rv.Metric,
                       Lifetime := rv.Lifetime }
              else none
            | none => none)) ∧
    (n.Enabled = true → interfaceName.isEmpty = false →
      GenerateIp6tablesRules n interfaceName
        = n.Maps.flatMap (fun m =>
            if m.Public.isEmpty || m.Private.isEmpty then []
            else
              [postRule interfaceName (SimpleConcatAddress m.Private n.PfxPriv)
                 (SimpleConcatAddress m.Public n.PfxPub),
               preRule interfaceName (SimpleConcatAddress m.Public n.PfxPub)
                 (SimpleConcatAddress m.Private n.PfxPriv)])) := by
  refine ⟨fun h => by simp [GetRadvRoutes, h], fun h => ?_, fun he hi => ?_⟩
  · simp [GetRadvRoutes, h, radvRoutesLoop_eq]
  · simp [GenerateIp6tablesRules, he, hi, genRulesLoop_eq]

/-- Witness for C8 (amended): an annotated mapping with an invalid
expanded public address yields no advertisement route, without error. -/
theorem radv_validation_c8_witness :
    GetRadvRoutes
        { Name := str "nm", Enabled := true, PfxPub := str "2001:db8::",
          PfxPriv := str "fd00::",
          Maps := [{ Public := str "zzzz", Private := str "1",
                     Radv := some { Preference := str "high", Metric := 0,
                                    Lifetime := 3600, Pfx := [] } }] }
      = [{ Public := str "zzzz", Private := str "1",
           Radv := some { Preference := str "high", Metric := 0,
                          Lifetime := 3600, Pfx := [] } : MapPair }].filterMap
          (fun m =>
            match m.Radv with
            | some rv =>
              if isValidIPv6Address (SimpleConcatAddress m.Public (str "2001:db8::")) then
                some { Pfx := SimpleConcatAddress m.Public (str "2001:db8::"),
                       Preference := rv.Preference, Metric := rv.Metric,
                       Lifetime := rv.Lifetime }
              else none
            | none => none) :=
  (radv_validation_c8
      { Name := str "nm", Enabled := true, PfxPub := str "2001:db8::",
        PfxPriv := str "fd00::",
        Maps := [{ Public := str "zzzz", Private := str "1",
                   Radv := some { Preference := str "high", Metric := 0,
                                  Lifetime := 3600, Pfx := [] } }] }
      (str "eth0")).2.1 rfl

theorem hasPrefixStr_refl : ∀ s : Str, hasPrefixStr s s = true
  | [] => rfl
  | c :: rest => by simp [hasPrefixStr, hasPrefixStr_refl rest]

theorem trimPrefixStr_self (s : Str) : trimPrefixStr s s = [] := by
  simp [trimPrefixStr, hasPrefixStr_refl]

theorem findCommonLoop_cons (A S : List Str) (k : Nat) (ks : List Nat) :
    findCommonLoop A S (k :: ks)
      = if k ≤ S.length ∧ allMatch A (candidateOf S k) = true ∧
            hasReduction A (candidateOf S k) = true
        then candidateOf S k else findCommonLoop A S ks := by
  by_cases h1 : k ≤ S.length
  · by_cases h2 : allMatch A (candidateOf S k) = true
    · by_cases h3 : hasReduction A (candidateOf S k) = true
      · simp [findCommonLoop, h1, h2, h3]
      · simp only [Bool.not_eq_true] at h3
        simp [findCommonLoop, h1, h2, h3]
    · simp only [Bool.not_eq_true] at h2
      simp [findCommonLoop, h1, h2]
  · simp [findCommonLoop, h1]

theorem findCommonLoop_reduction (A S : List Str) :
    ∀ ks : List Nat, findCommonLoop A S ks ≠ [] →
      hasReduction A (findCommonLoop A S ks) = true
  | [], h => absurd rfl h
  | k :: ks, h => by
    rw [findCommonLoop_cons] at h ⊢
    by_cases hc : k ≤ S.length ∧ allMatch A (candidateOf S k) = true ∧
        hasReduction A (candidateOf S k) = true
    · simp only [hc, if_true]
      exact hc.2.2
    · simp only [hc, if_false] at h ⊢
      exact findCommonLoop_reduction A S ks h

/-- C9 counterexample: with addresses `2001:db8:1:` and `2001:db8:1:5`
the inferred prefix is `2001:db8:1:` — literally equal to the first
address in full — so the inference can return a prefix equal to a full
address (the guard only requires *some* address to shrink). -/
theorem prefix_inference_degenerate_c9 :
    findCommonIPv6Prefix
        [{ Public := str "2001:db8:1:", Private := str "p1" },
         { Public := str "2001:db8:1:5", Private := str "p2" }] true
      = str "2001:db8:1:" ∧
    (str "2001:db8:1:")
      ∈ ([{ Public := str "2001:db8:1:", Private := str "p1" },
          { Public := str "2001:db8:1:5", Private := str "p2" }].map
          NetmapMapping.Public) := by
  refine ⟨by decide, by decide⟩

/-- C9 (amended): on a non-empty list the inference tries the leading
3, then 2, then 1 segments of the first address (CIDR removed) and
returns the first candidate all addresses start with that leaves a
non-empty strict remainder on at least one address, else `""`; whenever
a non-empty prefix is returned, some address strictly extends it (the
prefix never equals every address, though it may coincide with one
address that another extends); on `2001:db8:1:20:0:0`,
`2001:db8:1:21:0:0`, `2001:db8:1:22:0:0` it returns `2001:db8:1:`. -/
theorem prefix_inference_c9 (mappings : List NetmapMapping) (isPublic : Bool)
    (first : NetmapMapping) (rest : List NetmapMapping)
    (h : mappings = first :: rest) :
    (findCommonIPv6Prefix mappings isPublic
      = (let A := mappings.map (fun m => if isPublic then m.Public else m.Private)
         let S := splitOnChar ':'
           (cleanAddr (if isPublic then first.Public else first.Private))
         if 3 ≤ S.length ∧ allMatch A (candidateOf S 3) = true ∧
             hasReduction A (candidateOf S 3) = true then candidateOf S 3
         else if 2 ≤ S.length ∧ allMatch A (candidateOf S 2) = true ∧
             hasReduction A (candidateOf S 2) = true then candidateOf S 2
         else if 1 ≤ S.length ∧ allMatch A (candidateOf S 1) = true ∧
             hasReduction A (candidateOf S 1) = true then candidateOf S 1
         else [])) ∧
    (findCommonIPv6Prefix mappings isPublic ≠ [] →
      ∃ a ∈ mappings.map (fun m => if isPublic then m.Public else m.Private),
        (trimPrefixStr (trimPrefixStr (cleanAddr a)
            (findCommonIPv6Prefix mappings isPublic)) (str ":")).isEmpty = false ∧
        cleanAddr a ≠ findCommonIPv6Prefix mappings isPublic) ∧
    findCommonIPv6Prefix
        [{ Public := str "2001:db8:1:20:0:0", Private := str "q1" },
         { Public := str "2001:db8:1:21:0:0", Private := str "q2" },
         { Public := str "2001:db8:1:22:0:0", Private := str "q3" }] true
      = str "2001:db8:1:" := by
  subst h
  refine ⟨?_, fun hne => ?_, by decide⟩
  · rw [show findCommonIPv6Prefix (first :: rest) isPublic
        = findCommonLoop
            ((first :: rest).map (fun m => if isPublic then m.Public else m.Private))
            (splitOnChar ':' (cleanAddr (if isPublic then first.Public else first.Private)))
            [3, 2, 1] from rfl,
      findCommonLoop_cons, findCommonLoop_cons, findCommonLoop_cons]
    simp [findCommonLoop]
  · have hred := findCommonLoop_reduction
      ((first :: rest).map (fun m => if isPublic then m.Public else m.Private))
      (splitOnChar ':' (cleanAddr (if isPublic then first.Public else first.Private)))
      [3, 2, 1] (by simpa [findCommonIPv6Prefix] using hne)
    have hres : findCommonIPv6Prefix (first :: rest) isPublic
        = findCommonLoop
            ((first :: rest).map (fun m => if isPublic then m.Public else m.Private))
            (splitOnChar ':' (cleanAddr (if isPublic then first.Public else first.Private)))
            [3, 2, 1] := rfl
    rw [hres]
    rcases List.any_eq_true.1 hred with ⟨a, ha, hp⟩
    simp only [Bool.and_eq_true] at hp
    refine ⟨a, ha, ?_, ?_⟩
    · simpa using hp.1
    · intro heq
      have hne1 := hp.1
      rw [heq, trimPrefixStr_self] at hne1
      simp [trimPrefixStr, hasPrefixStr] at hne1

/-- Witness for C9 (amended): the loop-unfolding and the non-degeneracy
consequence at the spec's three-address example. -/
theorem prefix_inference_c9_witness :
    findCommonIPv6Prefix
        [{ Public := str "2001:db8:1:20:0:0", Private := str "q1" },
         { Public := str "2001:db8:1:21:0:0", Private := str "q2" },
         { Public := str "2001:db8:1:22:0:0", Private := str "q3" }] true
      = str "2001:db8:1:" :=
  (prefix_inference_c9
      [{ Public := str "2001:db8:1:20:0:0", Private := str "q1" },
       { Public := str "2001:db8:1:21:0:0", Private := str "q2" },
       { Public := str "2001:db8:1:22:0:0", Private := str "q3" }] true
      { Public := str "2001:db8:1:20:0:0", Private := str "q1" }
      [{ Public := str "2001:db8:1:21:0:0", Private := str "q2" },
       { Public := str "2001:db8:1:22:0:0", Private := str "q3" }] rfl).2.2

theorem lastAssoc_append_last (k v : Str) :
    ∀ ps : List (Str × Str), lastAssoc k (ps ++ [(k, v)]) = some v
  | [] => by simp [lastAssoc]
  | (k1, v1) :: rest => by
    simp only [List.cons_append, lastAssoc, List.append_eq]
    rw [lastAssoc_append_last k v rest]

theorem natAddRun_trace_sub (ex : Str → Bool) :
    ∀ l : List Str, ∀ r : Str, r ∈ (natAddRun ex l).1 → r ∈ l
  | [], r => by simp [natAddRun]
  | o :: rest, r => by
    intro hr
    by_cases ho : ex o = true
    · simp only [natAddRun, ho, if_true, List.mem_cons] at hr
      rcases hr with hr | hr
      · simp [hr]
      · exact List.mem_cons_of_mem _ (natAddRun_trace_sub ex rest r hr)
    · simp only [Bool.not_eq_true] at ho
      simp only [natAddRun, ho, Bool.false_eq_true, if_false, List.mem_singleton] at hr
      simp [hr]

/-- C10 counterexample: two desired rules with the same normalized key
(`"x  y"` and `"x y"`) lead to *two* invocations of the last rule's
text for that single distinct key — not at most one — while the earlier
duplicate's raw text is indeed never executed. -/
theorem duplicate_key_invocation_c10 :
    normalizeNatRule (str "x  y") = normalizeNatRule (str "x y") ∧
    (natApplyRuleChanges (fun _ => true) [] [str "x  y", str "x y"]).addTrace
      = [str "x y", str "x y"] ∧
    ¬ (str "x  y") ∈
      (natApplyRuleChanges (fun _ => true) [] [str "x  y", str "x y"]).addTrace := by
  refine ⟨by decide, by decide, by decide⟩

/-- C10 (amended): the normalized-key-to-rule map keeps the last rule
per key (so an earlier duplicate-keyed rule's raw text is never
executed — every executed addition is a last binding of the map), but
the mapped rule is invoked once per occurrence of its key in the diff
list, so a duplicated key repeats the same invocation rather than
being limited to one command per distinct key. -/
theorem addmap_last_wins_c10 (ex : Str → Bool) (addMap : Str → Option Str)
    (currentRules newRules l : List Str) (k v r : Str) (ps : List (Str × Str)) :
    lastAssoc k (ps ++ [(k, v)]) = some v ∧
    natAddPhase ex addMap l = natAddRun ex (l.filterMap addMap) ∧
    (r ∈ (natApplyRuleChanges ex currentRules newRules).addTrace →
      ∃ k', lastAssoc k' ((newRules.map normalizeNatRule).zip newRules) = some r) := by
  refine ⟨lastAssoc_append_last k v ps, natAddPhase_eq_run ex addMap l, fun hr => ?_⟩
  have hr' : r ∈ (natAddRun ex
      ((difference (newRules.map normalizeNatRule) (currentRules.map normalizeNatRule)).filterMap
        (fun k' => lastAssoc k' ((newRules.map normalizeNatRule).zip newRules)))).1 := by
    simpa [natApplyRuleChanges, natAddPhase_eq_run] using hr
  have hmem := natAddRun_trace_sub ex _ r hr'
  rcases List.mem_filterMap.1 hmem with ⟨k', -, hk'⟩
  exact ⟨k', hk'⟩

/-- Witness for C10 (amended): in the duplicate-key run, the executed
rule text is a last binding of the key map. -/
theorem addmap_last_wins_c10_witness :
    ∃ k', lastAssoc k'
        (([str "x  y", str "x y"].map normalizeNatRule).zip [str "x  y", str "x y"])
      = some (str "x y") :=
  (addmap_last_wins_c10 (fun _ => true) (fun _ => none) [] [str "x  y", str "x y"] []
      (str "k") (str "v") (str "x y") []).2.2 (by decide)

end Natman
